import Mathlib

set_option maxHeartbeats 1000000
set_option maxRecDepth 8000

/-!
Shallow embedding of the queenssolver repository (src/grid.py and src/__main__.py).

Machine integers are modelled as Nat/Int; Python tuples of three channel values
become `RGB := Nat × Nat × Nat`; fallible code returns Option/Except.
-/

abbrev RGB := Nat × Nat × Nat

/-- Cell from grid.py: row, col and the RGB color tuple.  The neighbor map is not
stored on the cell; `neighborCells` below recomputes it exactly as Grid.build links
it (the map is built once from the grid and never mutated afterwards). -/
structure Cell where
  row : Nat
  col : Nat
  color : RGB
deriving DecidableEq

/-- GridGroup from grid.py: representative color and the member cells in discovery
order.  The marked_cell field lives in the solver state (`SState.assigns`). -/
structure GridGroup where
  color : RGB
  cells : List Cell
deriving DecidableEq

/-- The input to Grid.__init__: the dimensions and the color matrix, as a total
function (the Python constructor reads cells[row][col] for 0 ≤ row < rows,
0 ≤ col < cols). -/
structure GridIn where
  rows : Nat
  cols : Nat
  color : Nat → Nat → RGB

/-- The Cell object that Grid.build stores at (r, c). -/
def mkCell (g : GridIn) (r c : Nat) : Cell := ⟨r, c, g.color r c⟩

/-- self.cells after Grid.build: a rows×cols matrix of Cell objects. -/
def cellsMatrix (g : GridIn) : List (List Cell) :=
  (List.range g.rows).map (fun r => (List.range g.cols).map (fun c => mkCell g r c))

/-- Grid.get_cell: bounds-checked lookup into self.cells, None when out of range.
Python accepts arbitrary integers, hence Int arguments. -/
def get_cell (g : GridIn) (row col : Int) : Option Cell :=
  if 0 ≤ row ∧ row < (g.rows : Int) ∧ 0 ≤ col ∧ col < (g.cols : Int) then
    ((cellsMatrix g)[row.toNat]?).bind (fun rw => rw[col.toNat]?)
  else none

/-- The neighbor map linked by Grid.build for one cell, in dict insertion order
up, down, left, right, keeping only entries where get_cell returned a cell
(`{k: v for k, v in neighbors.items() if v}`). -/
def neighborCells (g : GridIn) (c : Cell) : List Cell :=
  [get_cell g ((c.row : Int) - 1) (c.col : Int),
   get_cell g ((c.row : Int) + 1) (c.col : Int),
   get_cell g (c.row : Int) ((c.col : Int) - 1),
   get_cell g (c.row : Int) ((c.col : Int) + 1)].filterMap id

/-- color_distance from Grid.group_cells: squared Euclidean RGB distance. -/
def color_distance (c1 c2 : RGB) : Int :=
  ((c1.1 : Int) - (c2.1 : Int)) ^ 2 + ((c1.2.1 : Int) - (c2.2.1 : Int)) ^ 2 +
    ((c1.2.2 : Int) - (c2.2.2 : Int)) ^ 2

/-- All cells of the grid in row-major scan order (the double loop over rows and
cols used both by Grid.build and by Grid.group_cells). -/
def scanCells (g : GridIn) : List Cell := (cellsMatrix g).flatten

/-- The neighbors of `cur` that the dfs inner loop pushes onto the stack: not yet
visited and within the color similarity threshold of the current cell (1000). -/
def pushable (g : GridIn) (visited : List Cell) (cur : Cell) : List Cell :=
  (neighborCells g cur).filter
    (fun nb => decide (nb ∉ visited ∧ color_distance cur.color nb.color ≤ 1000))

theorem pushable_subset_scan (g : GridIn) (visited : List Cell) (cur : Cell) :
    ∀ x ∈ pushable g visited cur, x ∈ scanCells g := by
  intro x hx
  have hx' : x ∈ neighborCells g cur := List.mem_of_mem_filter hx
  simp only [neighborCells, List.mem_filterMap, id_eq] at hx'
  obtain ⟨o, ho, rfl⟩ := hx'
  have : ∃ row col, get_cell g row col = some x := by
    simp only [List.mem_cons, List.not_mem_nil, or_false] at ho
    rcases ho with h | h | h | h <;> exact ⟨_, _, h.symm⟩
  obtain ⟨row, col, hget⟩ := this
  unfold get_cell at hget
  split at hget
  · obtain ⟨rw, hrw, hx⟩ := Option.bind_eq_some.mp hget
    have h1 : rw ∈ cellsMatrix g := List.getElem?_mem hrw
    have h2 : x ∈ rw := List.getElem?_mem hx
    exact List.mem_flatten.mpr ⟨rw, h1, h2⟩
  · exact absurd hget (by simp)

theorem pushable_length_le (g : GridIn) (visited : List Cell) (cur : Cell) :
    (pushable g visited cur).length ≤ 4 := by
  have h1 : (pushable g visited cur).length ≤ (neighborCells g cur).length :=
    List.length_filter_le _ _
  have h2 : (neighborCells g cur).length ≤ 4 := by
    have := List.length_filterMap_le (fun o : Option Cell => o)
      [get_cell g ((cur.row : Int) - 1) (cur.col : Int),
       get_cell g ((cur.row : Int) + 1) (cur.col : Int),
       get_cell g (cur.row : Int) ((cur.col : Int) - 1),
       get_cell g (cur.row : Int) ((cur.col : Int) + 1)]
    simpa [neighborCells] using this
  omega

theorem filter_visited_lt (g : GridIn) (visited : List Cell) (cur : Cell)
    (hscan : cur ∈ scanCells g) (hv : cur ∉ visited) :
    ((scanCells g).filter (fun x => decide (x ∉ cur :: visited))).length <
      ((scanCells g).filter (fun x => decide (x ∉ visited))).length := by
  have hsub : List.Sublist ((scanCells g).filter (fun x => decide (x ∉ cur :: visited)))
      ((scanCells g).filter (fun x => decide (x ∉ visited))) := by
    apply List.monotone_filter_right
    intro a ha
    simp only [decide_eq_true_eq, List.mem_cons, not_or] at ha ⊢
    exact ha.2
  have hmem : cur ∈ (scanCells g).filter (fun x => decide (x ∉ visited)) := by
    simp only [List.mem_filter, decide_eq_true_eq]
    exact ⟨hscan, hv⟩
  have hnmem : cur ∉ (scanCells g).filter (fun x => decide (x ∉ cur :: visited)) := by
    simp only [List.mem_filter, decide_eq_true_eq, List.mem_cons, not_or]
    tauto
  rcases Nat.lt_or_ge (((scanCells g).filter (fun x => decide (x ∉ cur :: visited))).length)
      (((scanCells g).filter (fun x => decide (x ∉ visited))).length) with h | h
  · exact h
  · exfalso
    have heq := hsub.eq_of_length (Nat.le_antisymm hsub.length_le h)
    rw [heq] at hnmem
    exact hnmem hmem

/-- The explicit-stack dfs loop inside Grid.group_cells.  The top of the Python
list stack is the head here; pushes therefore prepend the reversed neighbor
batch.  The proof argument records that every stacked cell is a real grid cell
(true at every call site since only get_cell results are pushed); it is needed
for termination. -/
def dfsLoop (g : GridIn) (stack visited members : List Cell)
    (hs : ∀ c ∈ stack, c ∈ scanCells g) : List Cell × List Cell :=
  match stack, hs with
  | [], _ => (visited, members)
  | cur :: rest, hs =>
    if hv : cur ∈ visited then
      dfsLoop g rest visited members (fun c hc => hs c (List.mem_cons_of_mem cur hc))
    else
      dfsLoop g ((pushable g (cur :: visited) cur).reverse ++ rest)
        (cur :: visited) (members ++ [cur])
        (by
          intro c hc
          rcases List.mem_append.mp hc with h | h
          · exact pushable_subset_scan g (cur :: visited) cur c (List.mem_reverse.mp h)
          · exact hs c (List.mem_cons_of_mem cur h))
termination_by 5 * ((scanCells g).filter (fun x => decide (x ∉ visited))).length + stack.length
decreasing_by
· simp only [List.length_cons]
  omega
· have hscan : cur ∈ scanCells g := hs cur (List.mem_cons_self cur rest)
  have hlt := filter_visited_lt g visited cur hscan hv
  have hlen : (pushable g (cur :: visited) cur).length ≤ 4 :=
    pushable_length_le g (cur :: visited) cur
  simp only [List.length_append, List.length_reverse, List.length_cons]
  omega

/-- One dfs call from Grid.group_cells: seeded with a single unvisited cell, the
group's member list starts empty.  Returns (visited set, group members). -/
def dfs (g : GridIn) (seed : Cell) (visited : List Cell) (hseed : seed ∈ scanCells g) :
    List Cell × List Cell :=
  dfsLoop g [seed] visited []
    (by intro c hc; rcases List.mem_cons.mp hc with h | h
        · exact h ▸ hseed
        · exact absurd h (List.not_mem_nil c))

/-- The outer row-major loop of Grid.group_cells: for each unvisited cell start a
new GridGroup with that cell's color and run the dfs. -/
def groupLoop (g : GridIn) : (todo : List Cell) → (∀ c ∈ todo, c ∈ scanCells g) →
    List Cell → List GridGroup → List Cell × List GridGroup
  | [], _, visited, groups => (visited, groups)
  | c :: rest, h, visited, groups =>
    if c ∈ visited then
      groupLoop g rest (fun x hx => h x (List.mem_cons_of_mem c hx)) visited groups
    else
      let r := dfs g c visited (h c (List.mem_cons_self c rest))
      groupLoop g rest (fun x hx => h x (List.mem_cons_of_mem c hx)) r.1
        (groups ++ [⟨c.color, r.2⟩])

/-- Grid.group_cells with the default color_similarity_threshold of 1000. -/
def Grid.group_cells (g : GridIn) : List GridGroup :=
  (groupLoop g (scanCells g) (fun _ h => h) [] []).2

/-! ## The backtracking solver (Grid.solve in grid.py) -/

/-- The solver's shared mutable state: the sets marked_cells, rows_used and
cols_used (Python sets, modelled as lists used only through membership, element
removal and insertion), plus one marked_cell slot per group (`assigns`, indexed
by group position, None = unassigned). -/
structure SState where
  marked : List Cell
  rowsUsed : List Nat
  colsUsed : List Nat
  assigns : List (Option Cell)
deriving DecidableEq

/-- is_valid on explicit set components: the cell's row and column are unused and
no marked cell is within one row and one column of it (king-move adjacency). -/
def validOn (marked : List Cell) (rowsUsed colsUsed : List Nat) (c : Cell) : Prop :=
  c.row ∉ rowsUsed ∧ c.col ∉ colsUsed ∧
    ∀ m ∈ marked, ¬(((m.row : Int) - (c.row : Int)).natAbs ≤ 1 ∧
      ((m.col : Int) - (c.col : Int)).natAbs ≤ 1)

instance (marked : List Cell) (rowsUsed colsUsed : List Nat) (c : Cell) :
    Decidable (validOn marked rowsUsed colsUsed c) := by
  unfold validOn; infer_instance

/-- is_valid from Grid.solve. -/
def is_valid (st : SState) (c : Cell) : Prop :=
  validOn st.marked st.rowsUsed st.colsUsed c

instance (st : SState) (c : Cell) : Decidable (is_valid st c) := by
  unfold is_valid; infer_instance

/-- The mutations performed when backtrack marks cell `c` for the group at
position `k`: add to marked_cells, rows_used, cols_used and set the group's
marked_cell. -/
def commit (st : SState) (k : Nat) (c : Cell) : SState :=
  ⟨c :: st.marked, c.row :: st.rowsUsed, c.col :: st.colsUsed, st.assigns.set k (some c)⟩

/-- The mutations performed when backtrack unmarks cell `c` for the group at
position `k`: remove from the three sets and reset the group's marked_cell to
None. -/
def uncommit (st : SState) (k : Nat) (c : Cell) : SState :=
  ⟨st.marked.erase c, st.rowsUsed.erase c.row, st.colsUsed.erase c.col, st.assigns.set k none⟩

/-- The inner `for cell in group.cells` loop of backtrack at group position `k`;
`recurse` is the call backtrack(group_index + 1).  Returns the Python function's
boolean result paired with the state left by the run. -/
def tryCells (recurse : SState → Bool × SState) (k : Nat) : List Cell → SState → Bool × SState
  | [], st => (false, st)
  | c :: cs, st =>
    if is_valid st c then
      let r := recurse (commit st k c)
      if r.1 then r else tryCells recurse k cs (uncommit r.2 k c)
    else tryCells recurse k cs st

/-- backtrack from Grid.solve, processing the suffix of self.groups that starts
at position `k` (group_index == len(self.groups) succeeds). -/
def backtrack : List GridGroup → Nat → SState → Bool × SState
  | [], _, st => (true, st)
  | g :: rest, k, st => tryCells (backtrack rest (k + 1)) k g.cells st

/-- Grid.solve: reset every group's marked_cell to None, then run backtrack(0)
with empty marked/row/column sets.  A `false` first component models the
ValueError("No solution exists for the given grid.") raised on failure. -/
def Grid.solve (gs : List GridGroup) : Bool × SState :=
  backtrack gs 0 ⟨[], [], [], List.replicate gs.length none⟩

/-! ## Grid-line detection (capture_and_analyze_grid in __main__.py) -/

/-- int(np.mean(group)) for a nonempty list of indices: the float mean truncated
toward zero, which for nonnegative values is floor division of the sum by the
length. -/
def intMean (l : List Nat) : Nat := l.sum / l.length

/-- The grouping loop of find_peaks: walk the remaining above-threshold indices,
append an index to the current group when its gap from the previous index is at
most the grouping threshold, otherwise flush the current group as its mean.
`prev` is lines[i - 1], `cur` the current group, `acc` grouped_lines. -/
def clusterLines (gap : Nat) : List Nat → Nat → List Nat → List Nat → List Nat
  | [], _, cur, acc => acc ++ [intMean cur]
  | x :: xs, prev, cur, acc =>
    if x - prev ≤ gap then clusterLines gap xs x (cur ++ [x]) acc
    else clusterLines gap xs x [x] (acc ++ [intMean cur])

/-- find_peaks from capture_and_analyze_grid.  The detection threshold is 50% of
the profile's maximum; `2 * value > max` renders the float comparison
`value > np.max(sums) * 0.5` exactly (halving an integer is exact in floating
point).  `none` models the IndexError raised by `lines[0]` when no index
survives thresholding. -/
def find_peaks (sums : List Nat) (axis_length : Nat) : Option (List Nat) :=
  let mx := sums.foldr max 0
  let lines := (List.range sums.length).filter (fun i => decide (2 * sums.getD i 0 > mx))
  match lines with
  | [] => none
  | l0 :: rest => some (clusterLines (axis_length / 50) rest l0 [l0] [])

/-- The outcomes of capture_and_analyze_grid after the screenshot has been taken:
gridNotDetected models the IndexError crash in find_peaks on an all-background
profile, lineCountMismatch the explicit ValueError, divisionByZero the
ZeroDivisionError of `width // grid_size` when only one line per axis was
found. -/
inductive CaptureError where
  | gridNotDetected : CaptureError
  | lineCountMismatch : CaptureError
  | divisionByZero : CaptureError
deriving DecidableEq

/-- capture_and_analyze_grid from __main__.py, starting from the two summed
intensity profiles (row_sums, col_sums), the region dimensions and the captured
image as a pixel function `img y x`.  Returns the grid_size × grid_size matrix
of sampled center colors. -/
def capture_and_analyze_grid (rowSums colSums : List Nat) (width height : Nat)
    (img : Nat → Nat → RGB) : Except CaptureError (List (List RGB)) :=
  match find_peaks rowSums height with
  | none => .error .gridNotDetected
  | some horizontalLines =>
    match find_peaks colSums width with
    | none => .error .gridNotDetected
    | some verticalLines =>
      if horizontalLines.length ≠ verticalLines.length then .error .lineCountMismatch
      else
        let gridSize := horizontalLines.length - 1
        if gridSize = 0 then .error .divisionByZero
        else
          let cellWidth := width / gridSize
          let cellHeight := height / gridSize
          .ok ((List.range gridSize).map (fun row => (List.range gridSize).map
            (fun col => img (row * cellHeight + cellHeight / 2) (col * cellWidth + cellWidth / 2))))

/-! ## Concrete instances used by counterexamples and witnesses -/

/-- A 2×2 all-black color matrix: flood fill produces a single region, so the
region count (1) differs from the grid dimension (2). -/
def monoGrid : GridIn := ⟨2, 2, fun _ _ => (0, 0, 0)⟩

/-- A 2×2 matrix with four widely separated colors: flood fill produces four
single-cell regions, so the region count (4) exceeds the grid dimension (2). -/
def fourColorGrid : GridIn := ⟨2, 2, fun r c => (100 * r, 100 * c, 0)⟩

/-- A 1×1 matrix, the smallest grid; used to exercise the grouping lemmas on a
concrete input. -/
def oneGrid : GridIn := ⟨1, 1, fun _ _ => (5, 6, 7)⟩

/-- Region R1 of the spec's concrete 4×4 scenario, members listed in the spec's
(row-major) order. -/
def demoR1 : GridGroup := ⟨(10, 0, 0), [⟨0, 0, (10, 0, 0)⟩, ⟨0, 1, (10, 0, 0)⟩, ⟨1, 0, (10, 0, 0)⟩]⟩

/-- Region R2 of the spec's concrete 4×4 scenario. -/
def demoR2 : GridGroup := ⟨(0, 10, 0), [⟨0, 2, (0, 10, 0)⟩, ⟨0, 3, (0, 10, 0)⟩, ⟨1, 3, (0, 10, 0)⟩]⟩

/-- Region R3 of the spec's concrete 4×4 scenario. -/
def demoR3 : GridGroup := ⟨(0, 0, 10),
  [⟨1, 1, (0, 0, 10)⟩, ⟨1, 2, (0, 0, 10)⟩, ⟨2, 1, (0, 0, 10)⟩, ⟨2, 2, (0, 0, 10)⟩,
   ⟨3, 1, (0, 0, 10)⟩, ⟨3, 2, (0, 0, 10)⟩]⟩

/-- Region R4 of the spec's concrete 4×4 scenario. -/
def demoR4 : GridGroup := ⟨(10, 10, 0),
  [⟨2, 0, (10, 10, 0)⟩, ⟨2, 3, (10, 10, 0)⟩, ⟨3, 0, (10, 10, 0)⟩, ⟨3, 3, (10, 10, 0)⟩]⟩

/-- The four regions R1–R4 of the spec's concrete scenario, in order. -/
def demoGroups : List GridGroup := [demoR1, demoR2, demoR3, demoR4]

/-- The assignment {R1→(1,0), R2→(0,2), R3→(3,1), R4→(2,3)} that the spec claims
the solver returns on the concrete scenario. -/
def claimedAssigns : List (Option Cell) :=
  [some ⟨1, 0, (10, 0, 0)⟩, some ⟨0, 2, (0, 10, 0)⟩, some ⟨3, 1, (0, 0, 10)⟩,
   some ⟨2, 3, (10, 10, 0)⟩]

/-- A synthetic intensity profile of length n that is 1 exactly at indices i and
j and 0 elsewhere: two one-pixel-wide lines at i and j. -/
def mkProfile (n i j : Nat) : List Nat :=
  (List.range n).map (fun k => if k = i ∨ k = j then 1 else 0)

/-- Modelled from the spec's words "collapse each cluster to the rounded mean of
its indices": the mean of the cluster rounded to the nearest integer (halves
rounding up).  Used only to compare the claimed rounding against the code's
truncation. -/
def roundedMean (l : List Nat) : Nat := (2 * l.sum + l.length) / (2 * l.length)

/-! ## Solver bookkeeping predicates -/

/-- Every marked_cell slot at position `k` or later is still unassigned (None).
This holds when backtrack(k) starts, because Grid.solve resets all slots and
backtrack fills or clears only slots of groups it has entered. -/
def TailNone (a : List (Option Cell)) (k : Nat) : Prop :=
  ∀ j, k ≤ j → ∀ v, a[j]? = some v → v = none

/-- The sequence of cells chosen by a successful backtracking run is valid step
by step: each cell is valid against the sets as they stand when it is tried. -/
def chainOk : List Cell → List Nat → List Nat → List Cell → Prop
  | _, _, _, [] => True
  | m, r, co, c :: cs => validOn m r co c ∧ chainOk (c :: m) (c.row :: r) (c.col :: co) cs

/-- Writing the chosen cells into consecutive marked_cell slots starting at
position `k`. -/
def writeChosen : List (Option Cell) → Nat → List Cell → List (Option Cell)
  | a, _, [] => a
  | a, k, c :: cs => writeChosen (a.set k (some c)) (k + 1) cs

/-- Two assigned cells are mutually acceptable: distinct rows, distinct columns
and not king-move adjacent. -/
def compat (a b : Cell) : Prop :=
  a.row ≠ b.row ∧ a.col ≠ b.col ∧
    ¬(((a.row : Int) - (b.row : Int)).natAbs ≤ 1 ∧ ((a.col : Int) - (b.col : Int)).natAbs ≤ 1)

/-- Two solver states that differ only in the iteration order of the Python sets
marked_cells, rows_used and cols_used: the list components are permutations of
each other and the marked_cell slots agree exactly. -/
def SEquiv (s t : SState) : Prop :=
  s.marked.Perm t.marked ∧ s.rowsUsed.Perm t.rowsUsed ∧ s.colsUsed.Perm t.colsUsed ∧
    s.assigns = t.assigns

/-- The concatenation of all member lists of the produced groups. -/
def joinCells (gs : List GridGroup) : List Cell := (gs.map GridGroup.cells).flatten

/-- `ReachesIn g mem a b`: cell b can be reached from cell a by a chain of grid
adjacencies in which every step lands on a member of `mem` and every consecutive
pair of cells has squared RGB distance at most 1000 (the similarity judged
against the current cell along the path, never against the seed). -/
inductive ReachesIn (g : GridIn) (mem : List Cell) (a : Cell) : Cell → Prop where
  | refl : ReachesIn g mem a a
  | step {b c : Cell} : ReachesIn g mem a b → c ∈ neighborCells g b →
      color_distance b.color c.color ≤ 1000 → c ∈ mem → ReachesIn g mem a c

/-- A group as produced by the grouping pass: its first member is its seed, the
representative color is the seed's color, and every member is chained to the
seed through locally-similar adjacent members. -/
def GoodGroup (g : GridIn) (grp : GridGroup) : Prop :=
  ∃ seed rest, grp.cells = seed :: rest ∧ grp.color = seed.color ∧
    ∀ m ∈ grp.cells, ReachesIn g grp.cells seed m

/-! ## Solver lemmas -/

theorem TailNone_set_some (a : List (Option Cell)) (k : Nat) (c : Cell)
    (h : TailNone a k) : TailNone (a.set k (some c)) (k + 1) := by
  intro j hj v hv
  rw [List.getElem?_set_ne (by omega)] at hv
  exact h j (by omega) v hv

theorem TailNone_set_none_self (a : List (Option Cell)) (k : Nat)
    (h : TailNone a k) : a.set k none = a := by
  rcases Nat.lt_or_ge k a.length with hk | hk
  · apply List.ext_getElem?
    intro j
    by_cases hj : k = j
    · subst hj
      rw [List.getElem?_set_self hk, List.getElem?_eq_getElem hk]
      have := h k (Nat.le_refl k) (a[k]) (List.getElem?_eq_getElem hk)
      rw [this]
    · rw [List.getElem?_set_ne hj]
  · exact List.set_eq_of_length_le hk

theorem TailNone_replicate (n : Nat) : TailNone (List.replicate n none) 0 := by
  intro j _ v hv
  rcases Nat.lt_or_ge j n with hj | hj
  · rw [List.getElem?_eq_getElem (by simpa using hj)] at hv
    simpa [List.getElem_replicate] using hv.symm
  · rw [List.getElem?_eq_none (by simpa using hj)] at hv
    cases hv

theorem uncommit_commit (st : SState) (k : Nat) (c : Cell)
    (h : TailNone st.assigns k) : uncommit (commit st k c) k c = st := by
  unfold uncommit commit
  cases st with
  | mk m r co a =>
    simp only [List.erase_cons_head]
    rw [List.set_set]
    rw [TailNone_set_none_self a k h]

/-- backtrack leaves the state exactly as it found it when it fails: every
tentative commit is undone by the matching uncommit. -/
theorem backtrack_restore : ∀ (gs : List GridGroup) (k : Nat) (st st2 : SState),
    TailNone st.assigns k → backtrack gs k st = (false, st2) → st2 = st := by
  intro gs
  induction gs with
  | nil => intro k st st2 _ h; cases h
  | cons g rest ih =>
    intro k st st2 htail h
    simp only [backtrack] at h
    generalize hcs : g.cells = cs at h
    clear hcs
    induction cs generalizing st with
    | nil =>
      simp only [tryCells] at h
      cases h; rfl
    | cons c cs ihc =>
      simp only [tryCells] at h
      split at h
      · rcases hr : backtrack rest (k + 1) (commit st k c) with ⟨b, str⟩
        rw [hr] at h
        cases b with
        | true => simp at h
        | false =>
          simp only at h
          have hres : str = commit st k c :=
            ih (k + 1) (commit st k c) str (TailNone_set_some st.assigns k c htail) hr
          rw [hres, uncommit_commit st k c htail] at h
          exact ihc st htail h
      · exact ihc st htail h

/-- Characterization of a successful backtrack run: it picks one cell per
remaining group, from that group's member list, forming a step-by-step valid
chain on top of the incoming sets, and it writes exactly those cells into the
marked_cell slots from position `k` on. -/
theorem backtrack_success : ∀ (gs : List GridGroup) (k : Nat) (st st2 : SState),
    TailNone st.assigns k → backtrack gs k st = (true, st2) →
    ∃ chosen : List Cell,
      chosen.length = gs.length ∧
      (∀ (i : Nat) (ci : Cell) (gi : GridGroup),
        chosen[i]? = some ci → gs[i]? = some gi → ci ∈ gi.cells) ∧
      chainOk st.marked st.rowsUsed st.colsUsed chosen ∧
      st2.assigns = writeChosen st.assigns k chosen := by
  intro gs
  induction gs with
  | nil =>
    intro k st st2 _ h
    simp only [backtrack] at h
    cases h
    exact ⟨[], rfl, by intro i ci gi h1 _; simp at h1, trivial, rfl⟩
  | cons g rest ih =>
    intro k st st2 htail h
    simp only [backtrack] at h
    obtain ⟨cs, hcs, hmem⟩ : ∃ cs, g.cells = cs ∧ ∀ c ∈ cs, c ∈ g.cells :=
      ⟨g.cells, rfl, fun c hc => hc⟩
    rw [hcs] at h
    clear hcs
    induction cs generalizing st with
    | nil => cases h
    | cons c cs ihc =>
      simp only [tryCells] at h
      split at h
      case isTrue hval =>
        rcases hr : backtrack rest (k + 1) (commit st k c) with ⟨b, str⟩
        rw [hr] at h
        cases b with
        | true =>
          have hstr : str = st2 := by simpa using h
          subst hstr
          obtain ⟨chosen, hlen, hmems, hchain, hassign⟩ :=
            ih (k + 1) (commit st k c) str (TailNone_set_some st.assigns k c htail) hr
          refine ⟨c :: chosen, by simp [hlen], ?_, ?_, ?_⟩
          · intro i ci gi h1 h2
            cases i with
            | zero =>
              simp only [List.getElem?_cons_zero, Option.some.injEq] at h1 h2
              subst h1; subst h2
              exact hmem c (List.mem_cons_self c cs)
            | succ i =>
              simp only [List.getElem?_cons_succ] at h1 h2
              exact hmems i ci gi h1 h2
          · exact ⟨hval, hchain⟩
          · simpa [writeChosen, commit] using hassign
        | false =>
          simp only at h
          have hres : str = commit st k c :=
            backtrack_restore rest (k + 1) (commit st k c) str
              (TailNone_set_some st.assigns k c htail) hr
          rw [hres, uncommit_commit st k c htail] at h
          exact ihc st htail h (fun x hx => hmem x (List.mem_cons_of_mem c hx))
      case isFalse =>
        exact ihc st htail h (fun x hx => hmem x (List.mem_cons_of_mem c hx))

theorem validOn_weaken (m : List Cell) (cm : Cell) (r co : List Nat) (rn cn : Nat) (d : Cell)
    (h : validOn (cm :: m) (rn :: r) (cn :: co) d) : validOn m r co d := by
  obtain ⟨h1, h2, h3⟩ := h
  exact ⟨fun hh => h1 (List.mem_cons_of_mem rn hh),
    fun hh => h2 (List.mem_cons_of_mem cn hh),
    fun x hx => h3 x (List.mem_cons_of_mem cm hx)⟩

theorem validOn_head_compat (m : List Cell) (r co : List Nat) (c d : Cell)
    (h : validOn (c :: m) (c.row :: r) (c.col :: co) d) : compat c d := by
  obtain ⟨h1, h2, h3⟩ := h
  refine ⟨?_, ?_, ?_⟩
  · intro he
    exact h1 (he ▸ List.mem_cons_self c.row r)
  · intro he
    exact h2 (he ▸ List.mem_cons_self c.col co)
  · exact h3 c (List.mem_cons_self c m)

theorem chainOk_pairwise : ∀ (chosen m : List Cell) (r co : List Nat),
    chainOk m r co chosen →
    List.Pairwise compat chosen ∧ ∀ d ∈ chosen, validOn m r co d := by
  intro chosen
  induction chosen with
  | nil => intro m r co _; exact ⟨List.Pairwise.nil, by intro d hd; cases hd⟩
  | cons c cs ih =>
    intro m r co hchain
    obtain ⟨hc, hrest⟩ := hchain
    obtain ⟨hpw, hall⟩ := ih (c :: m) (c.row :: r) (c.col :: co) hrest
    constructor
    · exact List.Pairwise.cons (fun d hd => validOn_head_compat m r co c d (hall d hd)) hpw
    · intro d hd
      rcases List.mem_cons.mp hd with rfl | hd
      · exact hc
      · exact validOn_weaken m c r co c.row c.col d (hall d hd)

theorem nodup_lt_length_le (l : List Nat) (n : Nat) (hnd : l.Nodup)
    (hlt : ∀ x ∈ l, x < n) : l.length ≤ n := by
  have hsub : l.toFinset ⊆ Finset.range n := by
    intro x hx
    exact Finset.mem_range.mpr (hlt x (List.mem_toFinset.mp hx))
  have := Finset.card_le_card hsub
  rw [List.toFinset_card_of_nodup hnd, Finset.card_range] at this
  exact this

theorem nodup_lt_length_eq_mem (l : List Nat) (n : Nat) (hnd : l.Nodup)
    (hlt : ∀ x ∈ l, x < n) (hlen : l.length = n) : ∀ r < n, r ∈ l := by
  have hsub : l.toFinset ⊆ Finset.range n := by
    intro x hx
    exact Finset.mem_range.mpr (hlt x (List.mem_toFinset.mp hx))
  have hcard : (Finset.range n).card ≤ l.toFinset.card := by
    rw [List.toFinset_card_of_nodup hnd, Finset.card_range, hlen]
  have heq := Finset.eq_of_subset_of_card_le hsub hcard
  intro r hr
  have : r ∈ l.toFinset := heq.symm ▸ Finset.mem_range.mpr hr
  exact List.mem_toFinset.mp this

theorem writeChosen_append : ∀ (cs : List Cell) (pre : List (Option Cell)),
    writeChosen (pre ++ List.replicate cs.length none) pre.length cs = pre ++ cs.map some := by
  intro cs
  induction cs with
  | nil => intro pre; simp [writeChosen]
  | cons c cs ih =>
    intro pre
    simp only [writeChosen, List.length_cons, List.replicate_succ]
    have hset : (pre ++ none :: List.replicate cs.length none).set pre.length (some c)
        = (pre ++ [some c]) ++ List.replicate cs.length none := by
      rw [List.set_append_right pre.length (some c) (Nat.le_refl pre.length)]
      simp [List.set]
    rw [hset]
    have hlen : pre.length + 1 = (pre ++ [some c]).length := by simp
    rw [hlen, ih (pre ++ [some c])]
    simp

theorem writeChosen_replicate (cs : List Cell) :
    writeChosen (List.replicate cs.length none) 0 cs = cs.map some := by
  have := writeChosen_append cs []
  simpa using this

theorem mem_of_chosen (chosen : List Cell) (gs : List GridGroup)
    (hlen : chosen.length = gs.length)
    (hmems : ∀ (i : Nat) (ci : Cell) (gi : GridGroup),
      chosen[i]? = some ci → gs[i]? = some gi → ci ∈ gi.cells) :
    ∀ x ∈ chosen, ∃ gi ∈ gs, x ∈ gi.cells := by
  intro x hx
  obtain ⟨i, hi⟩ := List.mem_iff_getElem?.mp hx
  have hilt : i < chosen.length := by
    by_contra hge
    rw [List.getElem?_eq_none (by omega)] at hi
    cases hi
  have higs : i < gs.length := by omega
  have hgi : gs[i]? = some gs[i] := List.getElem?_eq_getElem higs
  exact ⟨gs[i], List.getElem_mem higs, hmems i x gs[i] hi hgi⟩

/-- C9: if the backtracking search exhausts all candidates and Grid.solve fails,
the final state is exactly the reset state: in particular every group's
marked_cell slot is None, as it was reset at the start of the solve attempt. -/
theorem solve_failure_resets_all_assignments : ∀ (gs : List GridGroup) (st2 : SState),
    Grid.solve gs = (false, st2) →
    st2 = ⟨[], [], [], List.replicate gs.length none⟩ ∧ ∀ oc ∈ st2.assigns, oc = none := by
  intro gs st2 h
  have hres := backtrack_restore gs 0 ⟨[], [], [], List.replicate gs.length none⟩ st2
    (TailNone_replicate gs.length) h
  subst hres
  refine ⟨rfl, ?_⟩
  intro oc hoc
  exact List.eq_of_mem_replicate hoc

/-- Closed witness for the C9 theorem at a concrete unsolvable input (a single
group with no member cells). -/
theorem solve_failure_resets_all_assignments_witness :
    Grid.solve [⟨(0, 0, 0), []⟩] = (false, ⟨[], [], [], [none]⟩) ∧
    ((⟨[], [], [], [none]⟩ : SState) = ⟨[], [], [], List.replicate 1 none⟩ ∧
      ∀ oc ∈ (⟨[], [], [], [none]⟩ : SState).assigns, oc = none) :=
  ⟨by decide, solve_failure_resets_all_assignments [⟨(0, 0, 0), []⟩] ⟨[], [], [], [none]⟩ (by decide)⟩

/-- C1 (amended): when Grid.solve succeeds on a list of groups whose member
cells all lie inside an n×n board and whose group count equals n, the marked
cells are one per group (taken from that group's members), hit every row and
every column exactly once, and are pairwise at Chebyshev distance at least 2. -/
theorem solve_success_valid (n : Nat) (gs : List GridGroup) (st2 : SState)
    (hin : ∀ grp ∈ gs, ∀ c ∈ grp.cells, c.row < n ∧ c.col < n)
    (hlen : gs.length = n)
    (hsol : Grid.solve gs = (true, st2)) :
    ∃ chosen : List Cell,
      st2.assigns = chosen.map some ∧
      chosen.length = gs.length ∧
      (∀ (i : Nat) (ci : Cell) (gi : GridGroup),
        chosen[i]? = some ci → gs[i]? = some gi → ci ∈ gi.cells) ∧
      ((chosen.map Cell.row).Nodup ∧ ∀ r, r < n → r ∈ chosen.map Cell.row) ∧
      ((chosen.map Cell.col).Nodup ∧ ∀ c, c < n → c ∈ chosen.map Cell.col) ∧
      List.Pairwise (fun a b => 2 ≤ max ((a.row : Int) - (b.row : Int)).natAbs
        ((a.col : Int) - (b.col : Int)).natAbs) chosen := by
  obtain ⟨chosen, hchlen, hmems, hchain, hassign⟩ :=
    backtrack_success gs 0 ⟨[], [], [], List.replicate gs.length none⟩ st2
      (TailNone_replicate gs.length) hsol
  have hpw := (chainOk_pairwise chosen [] [] [] hchain).1
  have hmem_facts := mem_of_chosen chosen gs hchlen hmems
  have hrow_lt : ∀ x ∈ chosen.map Cell.row, x < n := by
    intro x hx
    obtain ⟨cel, hcel, rfl⟩ := List.mem_map.mp hx
    obtain ⟨gi, hgi, hcg⟩ := hmem_facts cel hcel
    exact (hin gi hgi cel hcg).1
  have hcol_lt : ∀ x ∈ chosen.map Cell.col, x < n := by
    intro x hx
    obtain ⟨cel, hcel, rfl⟩ := List.mem_map.mp hx
    obtain ⟨gi, hgi, hcg⟩ := hmem_facts cel hcel
    exact (hin gi hgi cel hcg).2
  have hrow_nd : (chosen.map Cell.row).Nodup :=
    List.Pairwise.map Cell.row (fun a b hab => hab.1) hpw
  have hcol_nd : (chosen.map Cell.col).Nodup :=
    List.Pairwise.map Cell.col (fun a b hab => hab.2.1) hpw
  have hmaplen_r : (chosen.map Cell.row).length = n := by simp [hchlen, hlen]
  have hmaplen_c : (chosen.map Cell.col).length = n := by simp [hchlen, hlen]
  refine ⟨chosen, ?_, hchlen, hmems, ⟨hrow_nd, ?_⟩, ⟨hcol_nd, ?_⟩, ?_⟩
  · rw [hassign]
    have : List.replicate gs.length (none : Option Cell) = List.replicate chosen.length none := by
      rw [hchlen]
    rw [this]
    exact writeChosen_replicate chosen
  · exact nodup_lt_length_eq_mem (chosen.map Cell.row) n hrow_nd hrow_lt hmaplen_r
  · exact nodup_lt_length_eq_mem (chosen.map Cell.col) n hcol_nd hcol_lt hmaplen_c
  · refine hpw.imp ?_
    intro a b hab
    have h3 := hab.2.2
    rcases Nat.lt_or_ge (((a.row : Int) - (b.row : Int)).natAbs) 2 with hr | hr
    · rcases Nat.lt_or_ge (((a.col : Int) - (b.col : Int)).natAbs) 2 with hc | hc
      · exact absurd ⟨by omega, by omega⟩ h3
      · omega
    · omega

/-- Closed witness for the C1 theorem: a 1×1 board with one single-cell group. -/
theorem solve_success_valid_witness :
    ∃ chosen : List Cell,
      (⟨[⟨0, 0, (5, 6, 7)⟩], [0], [0], [some ⟨0, 0, (5, 6, 7)⟩]⟩ : SState).assigns
        = chosen.map some ∧
      chosen.length = [(⟨(5, 6, 7), [⟨0, 0, (5, 6, 7)⟩]⟩ : GridGroup)].length ∧
      (∀ (i : Nat) (ci : Cell) (gi : GridGroup),
        chosen[i]? = some ci →
          [(⟨(5, 6, 7), [⟨0, 0, (5, 6, 7)⟩]⟩ : GridGroup)][i]? = some gi → ci ∈ gi.cells) ∧
      ((chosen.map Cell.row).Nodup ∧ ∀ r, r < 1 → r ∈ chosen.map Cell.row) ∧
      ((chosen.map Cell.col).Nodup ∧ ∀ c, c < 1 → c ∈ chosen.map Cell.col) ∧
      List.Pairwise (fun a b => 2 ≤ max ((a.row : Int) - (b.row : Int)).natAbs
        ((a.col : Int) - (b.col : Int)).natAbs) chosen :=
  solve_success_valid 1 [⟨(5, 6, 7), [⟨0, 0, (5, 6, 7)⟩]⟩]
    ⟨[⟨0, 0, (5, 6, 7)⟩], [0], [0], [some ⟨0, 0, (5, 6, 7)⟩]⟩
    (by decide) (by decide) (by decide)

/-- If Grid.solve is handed more groups than the board has rows (every member
cell lying in a row below `n`), the search cannot succeed: a success would mark
one cell per group with pairwise distinct rows, which is impossible by
pigeonhole.  This is the solver-level core of the amended C2. -/
theorem solve_fail_of_excess_groups (n : Nat) (gs : List GridGroup)
    (hin : ∀ grp ∈ gs, ∀ c ∈ grp.cells, c.row < n)
    (hlen : n < gs.length) :
    (Grid.solve gs).1 = false := by
  rcases hsolve : Grid.solve gs with ⟨b, st2⟩
  cases b with
  | false => rfl
  | true =>
    exfalso
    obtain ⟨chosen, hchlen, hmems, hchain, _⟩ :=
      backtrack_success gs 0 ⟨[], [], [], List.replicate gs.length none⟩ st2
        (TailNone_replicate gs.length) hsolve
    have hpw := (chainOk_pairwise chosen [] [] [] hchain).1
    have hrow_nd : (chosen.map Cell.row).Nodup :=
      List.Pairwise.map Cell.row (fun a b hab => hab.1) hpw
    have hrow_lt : ∀ x ∈ chosen.map Cell.row, x < n := by
      intro x hx
      obtain ⟨cel, hcel, rfl⟩ := List.mem_map.mp hx
      obtain ⟨gi, hgi, hcg⟩ := mem_of_chosen chosen gs hchlen hmems cel hcel
      exact hin gi hgi cel hcg
    have := nodup_lt_length_le (chosen.map Cell.row) n hrow_nd hrow_lt
    simp only [List.length_map] at this
    omega

/-- Concrete run of the grouping pass on the all-black 2×2 matrix: one region
containing all four cells, discovered in dfs order. -/
theorem group_cells_monoGrid :
    Grid.group_cells monoGrid =
      [⟨(0, 0, 0), [⟨0, 0, (0, 0, 0)⟩, ⟨0, 1, (0, 0, 0)⟩, ⟨1, 1, (0, 0, 0)⟩, ⟨1, 0, (0, 0, 0)⟩]⟩] := by
  simp [Grid.group_cells, groupLoop, dfs, dfsLoop, pushable, neighborCells, get_cell,
    scanCells, cellsMatrix, mkCell, color_distance, monoGrid, List.range_succ]

/-- Concrete run of the grouping pass on the 2×2 four-color matrix: four
single-cell regions. -/
theorem group_cells_fourColorGrid :
    Grid.group_cells fourColorGrid =
      [⟨(0, 0, 0), [⟨0, 0, (0, 0, 0)⟩]⟩, ⟨(0, 100, 0), [⟨0, 1, (0, 100, 0)⟩]⟩,
       ⟨(100, 0, 0), [⟨1, 0, (100, 0, 0)⟩]⟩, ⟨(100, 100, 0), [⟨1, 1, (100, 100, 0)⟩]⟩] := by
  simp [Grid.group_cells, groupLoop, dfs, dfsLoop, pushable, neighborCells, get_cell,
    scanCells, cellsMatrix, mkCell, color_distance, fourColorGrid, List.range_succ]

/-- Counterexample to C1 as stated: on the all-black 2×2 matrix Grid.solve
returns success, yet row 1 of the grid receives no marked cell, so the
assignment does not have exactly one cell per row. -/
theorem solve_success_not_one_per_row :
    Grid.solve (Grid.group_cells monoGrid)
      = (true, ⟨[⟨0, 0, (0, 0, 0)⟩], [0], [0], [some ⟨0, 0, (0, 0, 0)⟩]⟩) ∧
    1 < monoGrid.rows ∧
    ∀ oc ∈ (⟨[⟨0, 0, (0, 0, 0)⟩], [0], [0],
        [some ⟨0, 0, (0, 0, 0)⟩]⟩ : SState).assigns,
      ∀ cel, oc = some cel → cel.row ≠ 1 := by
  refine ⟨?_, by decide, by decide⟩
  rw [group_cells_monoGrid]
  decide

/-- Counterexample to C2 as stated: the all-black 2×2 matrix produces one region
while the grid dimension is 2, yet Grid.solve returns success rather than
raising or reporting failure. -/
theorem solve_success_despite_region_count_mismatch :
    (Grid.group_cells monoGrid).length = 1 ∧ monoGrid.rows = 2 ∧
    (Grid.solve (Grid.group_cells monoGrid)).1 = true := by
  refine ⟨by rw [group_cells_monoGrid]; rfl, by decide, ?_⟩
  rw [group_cells_monoGrid]
  decide

/-- Counterexample to C5 as stated: handing the solver exactly the four regions
R1–R4 of the spec's concrete scenario (members in the listed order), the first
satisfying assignment it returns is not the one the spec claims. -/
theorem solve_demo_differs_from_claim :
    (Grid.solve demoGroups).1 = true ∧
    (Grid.solve demoGroups).2.assigns =
      [some ⟨0, 1, (10, 0, 0)⟩, some ⟨1, 3, (0, 10, 0)⟩, some ⟨3, 2, (0, 0, 10)⟩,
       some ⟨2, 0, (10, 10, 0)⟩] ∧
    (Grid.solve demoGroups).2.assigns ≠ claimedAssigns := by
  refine ⟨?_, ?_, ?_⟩ <;> decide

/-- C5 (amended): on the spec's four concrete regions the solver succeeds and
returns the assignment {R1→(0,1), R2→(1,3), R3→(3,2), R4→(2,0)} — a valid
solution, but a different one from the hand-derived assignment in the spec. -/
theorem solve_demo_result :
    Grid.solve demoGroups =
      (true, ⟨[⟨2, 0, (10, 10, 0)⟩, ⟨3, 2, (0, 0, 10)⟩, ⟨1, 3, (0, 10, 0)⟩, ⟨0, 1, (10, 0, 0)⟩],
        [2, 3, 1, 0], [0, 2, 3, 1],
        [some ⟨0, 1, (10, 0, 0)⟩, some ⟨1, 3, (0, 10, 0)⟩, some ⟨3, 2, (0, 0, 10)⟩,
         some ⟨2, 0, (10, 10, 0)⟩]⟩) := by
  decide

theorem is_valid_congr (s t : SState) (c : Cell) (h : SEquiv s t) :
    is_valid s c ↔ is_valid t c := by
  obtain ⟨hm, hr, hco, _⟩ := h
  unfold is_valid validOn
  constructor
  · rintro ⟨h1, h2, h3⟩
    exact ⟨fun hh => h1 (hr.mem_iff.mpr hh), fun hh => h2 (hco.mem_iff.mpr hh),
      fun x hx => h3 x (hm.mem_iff.mpr hx)⟩
  · rintro ⟨h1, h2, h3⟩
    exact ⟨fun hh => h1 (hr.mem_iff.mp hh), fun hh => h2 (hco.mem_iff.mp hh),
      fun x hx => h3 x (hm.mem_iff.mp hx)⟩

theorem commit_sequiv (s t : SState) (k : Nat) (c : Cell) (h : SEquiv s t) :
    SEquiv (commit s k c) (commit t k c) := by
  obtain ⟨hm, hr, hco, ha⟩ := h
  exact ⟨hm.cons c, hr.cons c.row, hco.cons c.col, by simp only [commit]; rw [ha]⟩

theorem uncommit_sequiv (s t : SState) (k : Nat) (c : Cell) (h : SEquiv s t) :
    SEquiv (uncommit s k c) (uncommit t k c) := by
  obtain ⟨hm, hr, hco, ha⟩ := h
  exact ⟨hm.erase c, hr.erase c.row, hco.erase c.col, by simp only [uncommit]; rw [ha]⟩

theorem tryCells_sequiv (recurse : SState → Bool × SState) (k : Nat)
    (Hrec : ∀ s t : SState, SEquiv s t →
      (recurse s).1 = (recurse t).1 ∧ SEquiv (recurse s).2 (recurse t).2) :
    ∀ (cs : List Cell) (s t : SState), SEquiv s t →
      (tryCells recurse k cs s).1 = (tryCells recurse k cs t).1 ∧
      SEquiv (tryCells recurse k cs s).2 (tryCells recurse k cs t).2 := by
  intro cs
  induction cs with
  | nil => intro s t h; exact ⟨rfl, h⟩
  | cons c cs ih =>
    intro s t h
    by_cases hv : is_valid s c
    · have hv' : is_valid t c := (is_valid_congr s t c h).mp hv
      have hcom := commit_sequiv s t k c h
      obtain ⟨hflag, hstate⟩ := Hrec (commit s k c) (commit t k c) hcom
      simp only [tryCells, if_pos hv, if_pos hv']
      rcases h1 : recurse (commit s k c) with ⟨b1, s1⟩
      rcases h2 : recurse (commit t k c) with ⟨b2, s2⟩
      rw [h1, h2] at hflag hstate
      simp only at hflag hstate
      subst hflag
      cases b1 with
      | true => exact ⟨rfl, hstate⟩
      | false =>
        rw [if_neg (by simp : ¬((false, s1) : Bool × SState).1 = true),
          if_neg (by simp : ¬((false, s2) : Bool × SState).1 = true)]
        exact ih (uncommit s1 k c) (uncommit s2 k c) (uncommit_sequiv s1 s2 k c hstate)
    · have hv' : ¬ is_valid t c := fun hh => hv ((is_valid_congr s t c h).mpr hh)
      simp only [tryCells, if_neg hv, if_neg hv']
      exact ih s t h

theorem backtrack_sequiv : ∀ (gs : List GridGroup) (k : Nat) (s t : SState), SEquiv s t →
    (backtrack gs k s).1 = (backtrack gs k t).1 ∧
    SEquiv (backtrack gs k s).2 (backtrack gs k t).2 := by
  intro gs
  induction gs with
  | nil => intro k s t h; exact ⟨rfl, h⟩
  | cons g rest ih =>
    intro k s t h
    simp only [backtrack]
    exact tryCells_sequiv (backtrack rest (k + 1)) k (fun s' t' h' => ih (k + 1) s' t' h')
      g.cells s t h

/-- C8: the solver is deterministic.  Identical group lists give identical
results (Grid.solve is a function of the groups alone), and the only internal
iteration-order freedom — the Python set iteration order of marked_cells,
rows_used and cols_used — cannot influence either the success flag or the
assignment of cells to groups. -/
theorem solve_deterministic :
    (∀ gs1 gs2 : List GridGroup, gs1 = gs2 → Grid.solve gs1 = Grid.solve gs2) ∧
    (∀ (gs : List GridGroup) (k : Nat) (s t : SState), SEquiv s t →
      (backtrack gs k s).1 = (backtrack gs k t).1 ∧
      (backtrack gs k s).2.assigns = (backtrack gs k t).2.assigns) := by
  constructor
  · intro gs1 gs2 h
    rw [h]
  · intro gs k s t h
    obtain ⟨hflag, hst⟩ := backtrack_sequiv gs k s t h
    exact ⟨hflag, hst.2.2.2⟩

/-- Closed witness for the C8 theorem: two states whose set components are
nontrivial permutations of each other drive backtrack to the same results. -/
theorem solve_deterministic_witness :
    Grid.solve [demoR1] = Grid.solve [demoR1] ∧
    ((backtrack [demoR2] 0 ⟨[⟨0, 0, (1, 2, 3)⟩, ⟨5, 5, (3, 2, 1)⟩], [0, 5], [0, 5], [none]⟩).1 =
      (backtrack [demoR2] 0 ⟨[⟨5, 5, (3, 2, 1)⟩, ⟨0, 0, (1, 2, 3)⟩], [5, 0], [5, 0], [none]⟩).1 ∧
     (backtrack [demoR2] 0 ⟨[⟨0, 0, (1, 2, 3)⟩, ⟨5, 5, (3, 2, 1)⟩], [0, 5], [0, 5], [none]⟩).2.assigns =
      (backtrack [demoR2] 0 ⟨[⟨5, 5, (3, 2, 1)⟩, ⟨0, 0, (1, 2, 3)⟩], [5, 0], [5, 0], [none]⟩).2.assigns) :=
  ⟨solve_deterministic.1 [demoR1] [demoR1] rfl,
   solve_deterministic.2 [demoR2] 0
     ⟨[⟨0, 0, (1, 2, 3)⟩, ⟨5, 5, (3, 2, 1)⟩], [0, 5], [0, 5], [none]⟩
     ⟨[⟨5, 5, (3, 2, 1)⟩, ⟨0, 0, (1, 2, 3)⟩], [5, 0], [5, 0], [none]⟩
     (by refine ⟨?_, ?_, ?_, rfl⟩ <;> decide)⟩

theorem ReachesIn.mono (g : GridIn) (mem mem' : List Cell) (hsub : ∀ x ∈ mem, x ∈ mem')
    (a b : Cell) (h : ReachesIn g mem a b) : ReachesIn g mem' a b := by
  induction h with
  | refl => exact .refl
  | step hr hn hd hm ih => exact .step ih hn hd (hsub _ hm)

theorem mem_pushable (g : GridIn) (visited : List Cell) (cur x : Cell) :
    x ∈ pushable g visited cur ↔
      x ∈ neighborCells g cur ∧ x ∉ visited ∧ color_distance cur.color x.color ≤ 1000 := by
  simp only [pushable, List.mem_filter, decide_eq_true_eq]

/-- Collecting membership facts about one dfsLoop run: the incoming visited set
and every stacked cell end up visited, and every newly visited cell is a real
grid cell. -/
theorem dfsLoop_visited (g : GridIn) :
    ∀ (stack visited members : List Cell) (hs : ∀ c ∈ stack, c ∈ scanCells g),
    (∀ c ∈ visited, c ∈ (dfsLoop g stack visited members hs).1) ∧
    (∀ c ∈ stack, c ∈ (dfsLoop g stack visited members hs).1) ∧
    (∀ c ∈ (dfsLoop g stack visited members hs).1, c ∈ visited ∨ c ∈ scanCells g) := by
  intro stack visited members hs
  induction stack, visited, members, hs using dfsLoop.induct g with
  | case1 visited members x hs =>
    rw [dfsLoop]
    exact ⟨fun c hc => hc, fun c hc => absurd hc (List.not_mem_nil c), fun c hc => Or.inl hc⟩
  | case2 visited members cur rest hs hv hs2 ih =>
    rw [dfsLoop]
    simp only [dif_pos hv]
    obtain ⟨ih1, ih2, ih3⟩ := ih
    refine ⟨ih1, ?_, ih3⟩
    intro c hc
    rcases List.mem_cons.mp hc with rfl | hc
    · exact ih1 c hv
    · exact ih2 c hc
  | case3 visited members cur rest hs hv hs2 ih =>
    rw [dfsLoop]
    simp only [dif_neg hv]
    obtain ⟨ih1, ih2, ih3⟩ := ih
    refine ⟨?_, ?_, ?_⟩
    · intro c hc
      exact ih1 c (List.mem_cons_of_mem cur hc)
    · intro c hc
      rcases List.mem_cons.mp hc with heq | hc
      · rw [heq]
        exact ih1 cur (List.mem_cons_self cur visited)
      · exact ih2 c (List.mem_append_right _ hc)
    · intro c hc
      rcases ih3 c hc with hin | hin
      · rcases List.mem_cons.mp hin with rfl | hin
        · exact Or.inr (hs2 c (List.mem_cons_self c rest))
        · exact Or.inl hin
      · exact Or.inr hin

/-- The member list only grows at the back: the result extends the incoming
members with newly visited cells. -/
theorem dfsLoop_members_extend (g : GridIn) :
    ∀ (stack visited members : List Cell) (hs : ∀ c ∈ stack, c ∈ scanCells g),
    ∃ delta, (dfsLoop g stack visited members hs).2 = members ++ delta := by
  intro stack visited members hs
  induction stack, visited, members, hs using dfsLoop.induct g with
  | case1 visited members x hs => exact ⟨[], by rw [dfsLoop]; simp⟩
  | case2 visited members cur rest hs hv hs2 ih =>
    obtain ⟨delta, hd⟩ := ih
    refine ⟨delta, ?_⟩
    rw [dfsLoop]
    simpa [dif_pos hv] using hd
  | case3 visited members cur rest hs hv hs2 ih =>
    obtain ⟨delta, hd⟩ := ih
    refine ⟨cur :: delta, ?_⟩
    rw [dfsLoop]
    simp only [dif_neg hv]
    rw [hd, List.append_assoc]
    rfl

/-- The central bookkeeping invariant of the grouping pass: if the visited set
consists exactly of the cells already emitted into groups (with no duplicates),
the same is true after a dfsLoop run, where the run's result extends the member
list currently being built. -/
theorem dfsLoop_inv (g : GridIn) :
    ∀ (stack visited members : List Cell) (hs : ∀ c ∈ stack, c ∈ scanCells g)
      (accPrev : List Cell),
    (∀ c, c ∈ visited ↔ c ∈ accPrev ++ members) → (accPrev ++ members).Nodup →
    (∀ c, c ∈ (dfsLoop g stack visited members hs).1 ↔
        c ∈ accPrev ++ (dfsLoop g stack visited members hs).2) ∧
      (accPrev ++ (dfsLoop g stack visited members hs).2).Nodup := by
  intro stack visited members hs
  induction stack, visited, members, hs using dfsLoop.induct g with
  | case1 visited members x hs =>
    intro accPrev hiff hnd
    rw [dfsLoop]
    exact ⟨hiff, hnd⟩
  | case2 visited members cur rest hs hv hs2 ih =>
    intro accPrev hiff hnd
    rw [dfsLoop]
    simp only [dif_pos hv]
    exact ih accPrev hiff hnd
  | case3 visited members cur rest hs hv hs2 ih =>
    intro accPrev hiff hnd
    rw [dfsLoop]
    simp only [dif_neg hv]
    apply ih accPrev
    · intro c
      constructor
      · intro hc
        rcases List.mem_cons.mp hc with rfl | hc
        · simp
        · have := (hiff c).mp hc
          simp only [List.mem_append, List.mem_cons] at this ⊢
          tauto
      · intro hc
        simp only [List.mem_append, List.mem_cons, List.not_mem_nil, or_false] at hc
        rcases hc with h | h | heq
        · exact List.mem_cons_of_mem cur ((hiff c).mpr (List.mem_append_left _ h))
        · exact List.mem_cons_of_mem cur ((hiff c).mpr (List.mem_append_right _ h))
        · rw [heq]
          exact List.mem_cons_self cur visited
    · have hnotin : cur ∉ accPrev ++ members := fun hin => hv ((hiff cur).mpr hin)
      rw [show accPrev ++ (members ++ [cur]) = (accPrev ++ members) ++ [cur] by
        rw [List.append_assoc]]
      refine List.Nodup.append hnd (List.nodup_singleton cur) ?_
      intro a ha hb
      rw [List.mem_singleton] at hb
      rw [hb] at ha
      exact hnotin ha

/-- Reachability invariant of the dfs loop: if every member so far is chained to
the seed within the member list, and every stacked cell is the seed itself or a
similarity-step away from some member, then every member of the final list is
chained to the seed within the final list. -/
theorem dfsLoop_reach (g : GridIn) (seed : Cell) :
    ∀ (stack visited members : List Cell) (hs : ∀ c ∈ stack, c ∈ scanCells g),
    (∀ m ∈ members, ReachesIn g members seed m) →
    (∀ c ∈ stack, c = seed ∨ ∃ b ∈ members, c ∈ neighborCells g b ∧
      color_distance b.color c.color ≤ 1000) →
    ∀ m ∈ (dfsLoop g stack visited members hs).2,
      ReachesIn g (dfsLoop g stack visited members hs).2 seed m := by
  intro stack visited members hs
  induction stack, visited, members, hs using dfsLoop.induct g with
  | case1 visited members x hs =>
    intro hm _
    rw [dfsLoop]
    exact hm
  | case2 visited members cur rest hs hv hs2 ih =>
    intro hm hstack
    rw [dfsLoop]
    simp only [dif_pos hv]
    exact ih hm (fun c hc => hstack c (List.mem_cons_of_mem cur hc))
  | case3 visited members cur rest hs hv hs2 ih =>
    intro hm hstack
    rw [dfsLoop]
    simp only [dif_neg hv]
    have hsub : ∀ x ∈ members, x ∈ members ++ [cur] := fun x hx => List.mem_append_left _ hx
    have hcur_mem : cur ∈ members ++ [cur] := by simp
    have hcur_reach : ReachesIn g (members ++ [cur]) seed cur := by
      rcases hstack cur (List.mem_cons_self cur rest) with heq | ⟨b, hb, hn, hd⟩
      · rw [heq]; exact .refl
      · exact .step (ReachesIn.mono g members (members ++ [cur]) hsub seed b (hm b hb))
          hn hd hcur_mem
    apply ih
    · intro m hmem
      rcases List.mem_append.mp hmem with h | h
      · exact ReachesIn.mono g members (members ++ [cur]) hsub seed m (hm m h)
      · rw [List.mem_singleton.mp h]
        exact hcur_reach
    · intro c hc
      rcases List.mem_append.mp hc with h | h
      · right
        have hp := (mem_pushable g (cur :: visited) cur c).mp (List.mem_reverse.mp h)
        exact ⟨cur, hcur_mem, hp.1, hp.2.2⟩
      · rcases hstack c (List.mem_cons_of_mem cur h) with heq | ⟨b, hb, hn, hd⟩
        · exact Or.inl heq
        · exact Or.inr ⟨b, hsub b hb, hn, hd⟩

/-- Membership in the row-major cell list characterizes the grid's cells. -/
theorem mem_scanCells (g : GridIn) (c : Cell) :
    c ∈ scanCells g ↔ c.row < g.rows ∧ c.col < g.cols ∧ c = mkCell g c.row c.col := by
  simp only [scanCells, cellsMatrix, List.mem_flatten, List.mem_map, List.mem_range]
  constructor
  · rintro ⟨l, ⟨r, hr, rfl⟩, hc⟩
    obtain ⟨cc, hcc, hceq⟩ := List.mem_map.mp hc
    have hcr : c.row = r := by rw [← hceq]; rfl
    have hccol : c.col = cc := by rw [← hceq]; rfl
    rw [hcr, hccol]
    exact ⟨hr, List.mem_range.mp hcc, by rw [← hceq]⟩
  · rintro ⟨hr, hc, hceq⟩
    refine ⟨(List.range g.cols).map (fun cc => mkCell g c.row cc), ⟨c.row, hr, rfl⟩, ?_⟩
    exact List.mem_map.mpr ⟨c.col, List.mem_range.mpr hc, hceq.symm⟩

theorem joinCells_append (gs : List GridGroup) (grp : GridGroup) :
    joinCells (gs ++ [grp]) = joinCells gs ++ grp.cells := by
  simp [joinCells]

/-- Full invariant of the row-major grouping loop: the visited set always equals
the union of emitted members (without duplicates, all real grid cells), every
pending cell ends up visited, and every emitted group is well-formed (seeded by
its first member, chained by local similarity). -/
theorem groupLoop_spec (g : GridIn) :
    ∀ (todo : List Cell) (h : ∀ c ∈ todo, c ∈ scanCells g) (visited : List Cell)
      (groups : List GridGroup),
    (∀ c, c ∈ visited ↔ c ∈ joinCells groups) → (joinCells groups).Nodup →
    (∀ c ∈ visited, c ∈ scanCells g) →
    (∀ c, c ∈ (groupLoop g todo h visited groups).1 ↔
        c ∈ joinCells (groupLoop g todo h visited groups).2) ∧
    (joinCells (groupLoop g todo h visited groups).2).Nodup ∧
    (∀ c ∈ todo, c ∈ (groupLoop g todo h visited groups).1) ∧
    (∀ c ∈ visited, c ∈ (groupLoop g todo h visited groups).1) ∧
    (∀ c ∈ (groupLoop g todo h visited groups).1, c ∈ scanCells g) ∧
    (∀ grp ∈ (groupLoop g todo h visited groups).2, grp ∈ groups ∨ GoodGroup g grp) := by
  intro todo
  induction todo with
  | nil =>
    intro h visited groups hiff hnd hscan
    simp only [groupLoop]
    exact ⟨hiff, hnd, fun c hc => absurd hc (List.not_mem_nil c), fun c hc => hc, hscan,
      fun grp hg => Or.inl hg⟩
  | cons c rest ih =>
    intro h visited groups hiff hnd hscan
    by_cases hv : c ∈ visited
    · simp only [groupLoop, if_pos hv]
      obtain ⟨i1, i2, i3, i4, i5, i6⟩ :=
        ih (fun x hx => h x (List.mem_cons_of_mem c hx)) visited groups hiff hnd hscan
      refine ⟨i1, i2, ?_, i4, i5, i6⟩
      intro x hx
      rcases List.mem_cons.mp hx with heq | hx
      · rw [heq]; exact i4 c hv
      · exact i3 x hx
    · simp only [groupLoop, if_neg hv]
      have hcscan : c ∈ scanCells g := h c (List.mem_cons_self c rest)
      -- facts about the dfs run
      have hseedstack : ∀ x ∈ [c], x ∈ scanCells g := by
        intro x hx
        rw [List.mem_singleton.mp hx]
        exact hcscan
      have hvis := dfsLoop_visited g [c] visited []
        (by intro x hx; rcases List.mem_cons.mp hx with hh | hh
            · exact hh ▸ hcscan
            · exact absurd hh (List.not_mem_nil x))
      have hinv := dfsLoop_inv g [c] visited []
        (by intro x hx; rcases List.mem_cons.mp hx with hh | hh
            · exact hh ▸ hcscan
            · exact absurd hh (List.not_mem_nil x))
        (joinCells groups)
        (by intro x; simpa using hiff x)
        (by simpa using hnd)
      have hreach := dfsLoop_reach g c [c] visited []
        (by intro x hx; rcases List.mem_cons.mp hx with hh | hh
            · exact hh ▸ hcscan
            · exact absurd hh (List.not_mem_nil x))
        (by intro m hm; cases hm)
        (by intro x hx; exact Or.inl (List.mem_singleton.mp hx))
      obtain ⟨hinv_iff, hinv_nd⟩ := hinv
      obtain ⟨hv1, hv2, hv3⟩ := hvis
      have hjoin : joinCells (groups ++ [⟨c.color, (dfs g c visited
          (h c (List.mem_cons_self c rest))).2⟩])
          = joinCells groups ++ (dfs g c visited (h c (List.mem_cons_self c rest))).2 :=
        joinCells_append groups _
      obtain ⟨i1, i2, i3, i4, i5, i6⟩ :=
        ih (fun x hx => h x (List.mem_cons_of_mem c hx))
          (dfs g c visited (h c (List.mem_cons_self c rest))).1
          (groups ++ [⟨c.color, (dfs g c visited (h c (List.mem_cons_self c rest))).2⟩])
          (by intro x; rw [hjoin]; exact hinv_iff x)
          (by rw [hjoin]; exact hinv_nd)
          (by intro x hx
              rcases hv3 x hx with hh | hh
              · exact hscan x hh
              · exact hh)
      refine ⟨i1, i2, ?_, ?_, i5, ?_⟩
      · intro x hx
        rcases List.mem_cons.mp hx with heq | hx
        · rw [heq]
          exact i4 c (hv2 c (List.mem_cons_self c []))
        · exact i3 x hx
      · intro x hx
        exact i4 x (hv1 x hx)
      · intro grp hg
        rcases i6 grp hg with hin | hgood
        · rcases List.mem_append.mp hin with hh | hh
          · exact Or.inl hh
          · right
            rw [List.mem_singleton.mp hh]
            -- the freshly created group is good
            have hstack2 : ∀ x ∈ (pushable g (c :: visited) c).reverse ++ ([] : List Cell),
                x ∈ scanCells g := by
              intro x hx
              rcases List.mem_append.mp hx with hh2 | hh2
              · exact pushable_subset_scan g (c :: visited) c x (List.mem_reverse.mp hh2)
              · exact absurd hh2 (List.not_mem_nil x)
            have hstep : dfs g c visited (h c (List.mem_cons_self c rest))
                = dfsLoop g ((pushable g (c :: visited) c).reverse ++ [])
                  (c :: visited) ([] ++ [c]) hstack2 := by
              unfold dfs
              rw [dfsLoop]
              simp only [dif_neg hv]
            obtain ⟨delta, hdelta⟩ := dfsLoop_members_extend g
              ((pushable g (c :: visited) c).reverse ++ []) (c :: visited) ([] ++ [c]) hstack2
            have hcells : (dfs g c visited (h c (List.mem_cons_self c rest))).2 = c :: delta := by
              rw [hstep]
              simpa using hdelta
            exact ⟨c, delta, hcells, rfl, fun m hm => hreach m hm⟩
        · exact Or.inr hgood

theorem group_cells_mem (g : GridIn) :
    ∀ c, c ∈ joinCells (Grid.group_cells g) ↔ c ∈ scanCells g := by
  obtain ⟨i1, i2, i3, i4, i5, i6⟩ := groupLoop_spec g (scanCells g) (fun _ h => h) [] []
    (by intro c; simp [joinCells]) (by simp [joinCells]) (by intro c hc; cases hc)
  intro c
  constructor
  · intro hc
    exact i5 c ((i1 c).mpr hc)
  · intro hc
    exact (i1 c).mp (i3 c hc)

theorem group_cells_nodup (g : GridIn) : (joinCells (Grid.group_cells g)).Nodup := by
  obtain ⟨i1, i2, i3, i4, i5, i6⟩ := groupLoop_spec g (scanCells g) (fun _ h => h) [] []
    (by intro c; simp [joinCells]) (by simp [joinCells]) (by intro c hc; cases hc)
  exact i2

theorem group_cells_good (g : GridIn) : ∀ grp ∈ Grid.group_cells g, GoodGroup g grp := by
  obtain ⟨i1, i2, i3, i4, i5, i6⟩ := groupLoop_spec g (scanCells g) (fun _ h => h) [] []
    (by intro c; simp [joinCells]) (by simp [joinCells]) (by intro c hc; cases hc)
  intro grp hg
  rcases i6 grp hg with hin | hgood
  · cases hin
  · exact hgood

theorem mem_joinCells_of_mem (gs : List GridGroup) (grp : GridGroup) (c : Cell)
    (hg : grp ∈ gs) (hc : c ∈ grp.cells) : c ∈ joinCells gs :=
  List.mem_flatten.mpr ⟨grp.cells, List.mem_map.mpr ⟨grp, hg, rfl⟩, hc⟩

/-- C3: for every input color matrix, the groups produced by Grid.group_cells
partition the cell set — their concatenated member lists contain no duplicates
and contain exactly the grid's cells (every cell at row < rows and col < cols,
with its sampled color, appears in exactly one group, exactly once). -/
theorem group_cells_partition (g : GridIn) :
    (joinCells (Grid.group_cells g)).Nodup ∧
    (∀ c, c ∈ joinCells (Grid.group_cells g) ↔ c ∈ scanCells g) ∧
    (∀ c, c ∈ scanCells g ↔ c.row < g.rows ∧ c.col < g.cols ∧ c = mkCell g c.row c.col) :=
  ⟨group_cells_nodup g, group_cells_mem g, fun c => mem_scanCells g c⟩

/-- C4: a neighbor is pushed onto the
dfs stack exactly when it is an unvisited linked neighbor whose squared RGB
distance from the current cell is at most 1000; consequently every member of an
emitted region is connected to the region's seed (the first member) by a chain
of linked member cells in which each consecutive step has squared RGB distance
at most 1000. -/
theorem group_cells_locally_similar (g : GridIn) :
    (∀ (visited : List Cell) (cur nb : Cell),
      nb ∈ pushable g visited cur ↔ nb ∈ neighborCells g cur ∧ nb ∉ visited ∧
        color_distance cur.color nb.color ≤ 1000) ∧
    (∀ grp ∈ Grid.group_cells g, ∃ seed rest, grp.cells = seed :: rest ∧
      grp.color = seed.color ∧ ∀ m ∈ grp.cells, ReachesIn g grp.cells seed m) :=
  ⟨fun visited cur nb => mem_pushable g visited cur nb,
   fun grp hg => group_cells_good g grp hg⟩

/-- Concrete run of the grouping pass on the 1×1 matrix. -/
theorem group_cells_oneGrid :
    Grid.group_cells oneGrid = [⟨(5, 6, 7), [⟨0, 0, (5, 6, 7)⟩]⟩] := by
  simp [Grid.group_cells, groupLoop, dfs, dfsLoop, pushable, neighborCells, get_cell,
    scanCells, cellsMatrix, mkCell, color_distance, oneGrid, List.range_succ]

/-- Closed witness for the C4 theorem, at the 1×1 grid and its single group. -/
theorem group_cells_locally_similar_witness :
    ((⟨0, 0, (5, 6, 7)⟩ : Cell) ∈ pushable oneGrid [] ⟨0, 0, (5, 6, 7)⟩ ↔
      (⟨0, 0, (5, 6, 7)⟩ : Cell) ∈ neighborCells oneGrid ⟨0, 0, (5, 6, 7)⟩ ∧
      (⟨0, 0, (5, 6, 7)⟩ : Cell) ∉ ([] : List Cell) ∧
      color_distance (5, 6, 7) (5, 6, 7) ≤ 1000) ∧
    (∃ seed rest, (⟨(5, 6, 7), [⟨0, 0, (5, 6, 7)⟩]⟩ : GridGroup).cells = seed :: rest ∧
      (⟨(5, 6, 7), [⟨0, 0, (5, 6, 7)⟩]⟩ : GridGroup).color = seed.color ∧
      ∀ m ∈ (⟨(5, 6, 7), [⟨0, 0, (5, 6, 7)⟩]⟩ : GridGroup).cells,
        ReachesIn oneGrid (⟨(5, 6, 7), [⟨0, 0, (5, 6, 7)⟩]⟩ : GridGroup).cells seed m) :=
  ⟨(group_cells_locally_similar oneGrid).1 [] ⟨0, 0, (5, 6, 7)⟩ ⟨0, 0, (5, 6, 7)⟩,
   (group_cells_locally_similar oneGrid).2 ⟨(5, 6, 7), [⟨0, 0, (5, 6, 7)⟩]⟩
     (by rw [group_cells_oneGrid]; exact List.mem_singleton.mpr rfl)⟩

/-- C2 (amended): whenever the grouping pass produces more regions than the grid
has rows, Grid.solve necessarily fails (raises Unsolvable): the distinct marked
rows of a success would exceed the available rows.  (When it produces fewer
regions than N the solver can succeed silently — see the counterexample.) -/
theorem solve_fails_when_region_count_exceeds_dimension (g : GridIn)
    (hcount : g.rows < (Grid.group_cells g).length) :
    (Grid.solve (Grid.group_cells g)).1 = false := by
  apply solve_fail_of_excess_groups g.rows (Grid.group_cells g) ?_ hcount
  intro grp hg c hc
  have hjoin : c ∈ joinCells (Grid.group_cells g) := mem_joinCells_of_mem _ grp c hg hc
  have hscan : c ∈ scanCells g := (group_cells_mem g c).mp hjoin
  exact ((mem_scanCells g c).mp hscan).1

/-- Closed witness for the amended C2 theorem: the 2×2 four-color matrix yields
four regions against two rows, and solve fails. -/
theorem solve_fails_when_region_count_exceeds_dimension_witness :
    (Grid.solve (Grid.group_cells fourColorGrid)).1 = false :=
  solve_fails_when_region_count_exceeds_dimension fourColorGrid
    (by rw [group_cells_fourColorGrid]; decide)

theorem foldr_max_le (l : List Nat) (b m : Nat) (hl : ∀ x ∈ l, x ≤ m) (hb : b ≤ m) :
    l.foldr max b ≤ m := by
  induction l with
  | nil => simpa using hb
  | cons x xs ih =>
    simp only [List.foldr_cons]
    exact max_le (hl x (List.mem_cons_self x xs))
      (ih (fun y hy => hl y (List.mem_cons_of_mem x hy)))

theorem le_foldr_max (l : List Nat) (b x : Nat) (hx : x ∈ l) : x ≤ l.foldr max b := by
  induction l with
  | nil => cases hx
  | cons y ys ih =>
    simp only [List.foldr_cons]
    rcases List.mem_cons.mp hx with heq | hx
    · rw [heq]; exact le_max_left y (ys.foldr max b)
    · exact le_trans (ih hx) (le_max_right y (ys.foldr max b))

theorem mkProfile_length (n i j : Nat) : (mkProfile n i j).length = n := by
  simp [mkProfile]

theorem mkProfile_getD (n i j k : Nat) (hk : k < n) :
    (mkProfile n i j).getD k 0 = if k = i ∨ k = j then 1 else 0 := by
  simp [mkProfile, List.getD_eq_getElem?_getD, List.getElem?_map, List.getElem?_range, hk]

theorem mkProfile_max (n i j : Nat) (hi : i < n) :
    (mkProfile n i j).foldr max 0 = 1 := by
  have hle : (mkProfile n i j).foldr max 0 ≤ 1 := by
    apply foldr_max_le
    · intro x hx
      simp only [mkProfile, List.mem_map] at hx
      obtain ⟨k, _, rfl⟩ := hx
      split <;> omega
    · omega
  have hge : 1 ≤ (mkProfile n i j).foldr max 0 := by
    apply le_foldr_max
    simp only [mkProfile, List.mem_map]
    exact ⟨i, List.mem_range.mpr hi, by simp⟩
  omega

theorem filter_range_pair_below (i j : Nat) (hij : i < j) :
    ∀ m, m ≤ i → (List.range m).filter (fun k => decide (k = i ∨ k = j)) = [] := by
  intro m
  induction m with
  | zero => intro _; rfl
  | succ m ih =>
    intro hm
    rw [List.range_succ, List.filter_append, ih (by omega)]
    simp only [List.filter_cons, List.filter_nil]
    rw [if_neg (by simp; omega)]
    rfl

theorem filter_range_pair_mid (i j : Nat) (hij : i < j) :
    ∀ m, i < m → m ≤ j → (List.range m).filter (fun k => decide (k = i ∨ k = j)) = [i] := by
  intro m
  induction m with
  | zero => intro h _; cases h
  | succ m ih =>
    intro him hmj
    rw [List.range_succ, List.filter_append]
    rcases Nat.lt_or_ge i m with hlt | hge
    · rw [ih hlt (by omega)]
      simp only [List.filter_cons, List.filter_nil]
      rw [if_neg (by simp; omega)]
      rfl
    · have heq : m = i := by omega
      rw [heq, filter_range_pair_below i j hij i (Nat.le_refl i)]
      simp only [List.filter_cons, List.filter_nil]
      rw [if_pos (by simp)]
      rfl

theorem filter_range_pair (i j : Nat) (hij : i < j) :
    ∀ m, j < m → (List.range m).filter (fun k => decide (k = i ∨ k = j)) = [i, j] := by
  intro m
  induction m with
  | zero => intro h; cases h
  | succ m ih =>
    intro hjm
    rw [List.range_succ, List.filter_append]
    rcases Nat.lt_or_ge j m with hlt | hge
    · rw [ih hlt]
      simp only [List.filter_cons, List.filter_nil]
      rw [if_neg (by simp; omega)]
      rfl
    · have heq : m = j := by omega
      rw [heq, filter_range_pair_mid i j hij j hij (Nat.le_refl j)]
      simp only [List.filter_cons, List.filter_nil]
      rw [if_pos (by simp)]
      rfl

theorem intMean_pair (i j : Nat) : intMean [i, j] = (i + j) / 2 := by
  simp [intMean]

theorem intMean_single (i : Nat) : intMean [i] = i := by
  simp [intMean]

/-- C6 (amended): on a synthetic profile with exactly two unit peaks at i and j,
find_peaks detects both indices; when their distance is at most the clustering
gap axis_length / 50 they collapse to a single line at the truncated mean
(i + j) / 2, and when it exceeds the gap they yield the two lines i and j. -/
theorem find_peaks_two_lines (n i j : Nat) (hij : i < j) (hjn : j < n) :
    find_peaks (mkProfile n i j) n =
      some (if j - i ≤ n / 50 then [(i + j) / 2] else [i, j]) := by
  have hin : i < n := by omega
  have hfilter : (List.range n).filter
      (fun k => decide (2 * (mkProfile n i j).getD k 0 > (mkProfile n i j).foldr max 0)) =
      (List.range n).filter (fun k => decide (k = i ∨ k = j)) := by
    rw [mkProfile_max n i j hin]
    apply List.filter_congr
    intro k hk
    rw [mkProfile_getD n i j k (List.mem_range.mp hk)]
    rcases Classical.em (k = i ∨ k = j) with h | h
    · rw [if_pos h]
      simp [h]
    · rw [if_neg h]
      simp [h]
  simp only [find_peaks, mkProfile_length, hfilter, filter_range_pair i j hij n hjn]
  simp only [clusterLines]
  by_cases hgap : j - i ≤ n / 50
  · rw [if_pos hgap, if_pos hgap]
    simp only [clusterLines, List.nil_append]
    rw [show [i] ++ [j] = [i, j] from rfl, intMean_pair]
  · rw [if_neg hgap, if_neg hgap]
    simp only [clusterLines, List.nil_append]
    rw [intMean_single, intMean_single]
    rfl

/-- Closed witness for the C6 theorem: peaks at 1 and 2 on a length-100 axis
(gap 2) collapse to the single line 1. -/
theorem find_peaks_two_lines_witness :
    find_peaks (mkProfile 100 1 2) 100 =
      some (if 2 - 1 ≤ 100 / 50 then [(1 + 2) / 2] else [1, 2]) :=
  find_peaks_two_lines 100 1 2 (by decide) (by decide)

/-- Counterexample to C6 as stated: the cluster {1, 2} is collapsed to
int(mean) = 1 (truncation toward zero), not to the rounded mean 2. -/
theorem find_peaks_truncates_not_rounds :
    find_peaks (mkProfile 100 1 2) 100 = some [1] ∧ roundedMean [1, 2] = 2 := by
  constructor
  · decide
  · decide

/-- Counterexample to C7 as stated: profiles with two detected lines per axis
(far below the claimed minimum of five) are accepted, and
capture_and_analyze_grid happily returns a 1×1 color matrix instead of failing
with an InsufficientLines error — no minimum-line-count check exists. -/
theorem capture_accepts_two_lines :
    find_peaks (mkProfile 100 0 99) 100 = some [0, 99] ∧
    capture_and_analyze_grid (mkProfile 100 0 99) (mkProfile 100 0 99) 100 100
      (fun _ _ => (7, 7, 7)) = .ok [[(7, 7, 7)]] := by
  have hfp : find_peaks (mkProfile 100 0 99) 100 = some [0, 99] := by decide
  refine ⟨hfp, ?_⟩
  unfold capture_and_analyze_grid
  rw [hfp]
  rfl

/-- C7 (amended): the detection stage checks only that the horizontal and
vertical line counts are equal; there is no minimum-line-count check.  With
equal counts, count 1 fails only through the division by zero in
`width // grid_size`, and any count of at least 2 produces a
(count−1)×(count−1) color matrix, however small. -/
theorem capture_no_minimum_line_check (rowSums colSums : List Nat) (width height : Nat)
    (img : Nat → Nat → RGB) (hl vl : List Nat)
    (hrow : find_peaks rowSums height = some hl)
    (hcol : find_peaks colSums width = some vl)
    (hlen : hl.length = vl.length) :
    (hl.length = 1 →
      capture_and_analyze_grid rowSums colSums width height img = .error .divisionByZero) ∧
    (2 ≤ hl.length →
      ∃ m, capture_and_analyze_grid rowSums colSums width height img = .ok m ∧
        m.length = hl.length - 1 ∧ ∀ r ∈ m, r.length = hl.length - 1) := by
  unfold capture_and_analyze_grid
  rw [hrow, hcol]
  simp only
  rw [if_neg (by omega : ¬hl.length ≠ vl.length)]
  constructor
  · intro h1
    rw [if_pos (by omega : hl.length - 1 = 0)]
  · intro h2
    rw [if_neg (by omega : ¬hl.length - 1 = 0)]
    refine ⟨_, rfl, by simp, ?_⟩
    intro r hr
    simp only [List.mem_map] at hr
    obtain ⟨k, _, rfl⟩ := hr
    simp

/-- Closed witness for the amended C7 theorem at the concrete two-line profiles. -/
theorem capture_no_minimum_line_check_witness :
    (([0, 99] : List Nat).length = 1 →
      capture_and_analyze_grid (mkProfile 100 0 99) (mkProfile 100 0 99) 100 100
        (fun _ _ => (7, 7, 7)) = .error .divisionByZero) ∧
    (2 ≤ ([0, 99] : List Nat).length →
      ∃ m, capture_and_analyze_grid (mkProfile 100 0 99) (mkProfile 100 0 99) 100 100
          (fun _ _ => (7, 7, 7)) = .ok m ∧
        m.length = ([0, 99] : List Nat).length - 1 ∧
        ∀ r ∈ m, r.length = ([0, 99] : List Nat).length - 1) :=
  capture_no_minimum_line_check (mkProfile 100 0 99) (mkProfile 100 0 99) 100 100
    (fun _ _ => (7, 7, 7)) [0, 99] [0, 99] (by decide) (by decide) rfl

theorem get_cell_in_bounds (g : GridIn) (row col : Int) (h1 : 0 ≤ row)
    (h2 : row < (g.rows : Int)) (h3 : 0 ≤ col) (h4 : col < (g.cols : Int)) :
    get_cell g row col = some (mkCell g row.toNat col.toNat) := by
  unfold get_cell
  rw [if_pos ⟨h1, h2, h3, h4⟩]
  have hrn : row.toNat < g.rows := by omega
  have hcn : col.toNat < g.cols := by omega
  rw [show cellsMatrix g = (List.range g.rows).map
    (fun r => (List.range g.cols).map (fun c => mkCell g r c)) from rfl]
  rw [List.getElem?_map, List.getElem?_range hrn]
  simp only [Option.map_some', Option.some_bind]
  rw [List.getElem?_map, List.getElem?_range hcn]
  rfl

theorem get_cell_out_of_bounds (g : GridIn) (row col : Int)
    (h : ¬(0 ≤ row ∧ row < (g.rows : Int) ∧ 0 ≤ col ∧ col < (g.cols : Int))) :
    get_cell g row col = none := by
  unfold get_cell
  rw [if_neg h]

theorem neighborCells_subset_scan (g : GridIn) (cell : Cell) :
    ∀ x ∈ neighborCells g cell, x ∈ scanCells g := by
  intro x hx
  simp only [neighborCells, List.mem_filterMap, id_eq] at hx
  obtain ⟨o, ho, rfl⟩ := hx
  have : ∃ row col, get_cell g row col = some x := by
    simp only [List.mem_cons, List.not_mem_nil, or_false] at ho
    rcases ho with h | h | h | h <;> exact ⟨_, _, h.symm⟩
  obtain ⟨row, col, hget⟩ := this
  unfold get_cell at hget
  split at hget
  · obtain ⟨rw, hrw, hx⟩ := Option.bind_eq_some.mp hget
    exact List.mem_flatten.mpr ⟨rw, List.getElem?_mem hrw, List.getElem?_mem hx⟩
  · exact absurd hget (by simp)

theorem get_cell_nat (g : GridIn) (r c : Nat) :
    get_cell g (r : Int) (c : Int) =
      if r < g.rows ∧ c < g.cols then some (mkCell g r c) else none := by
  by_cases h : r < g.rows ∧ c < g.cols
  · rw [if_pos h, get_cell_in_bounds g _ _ (by omega) (by omega) (by omega) (by omega)]
    simp
  · rw [if_neg h]
    apply get_cell_out_of_bounds
    omega

theorem neighborCells_count (g : GridIn) (cell : Cell) (hr : cell.row < g.rows)
    (hc : cell.col < g.cols) :
    (neighborCells g cell).length =
      (if 0 < cell.row then 1 else 0) + (if cell.row + 1 < g.rows then 1 else 0) +
      (if 0 < cell.col then 1 else 0) + (if cell.col + 1 < g.cols then 1 else 0) := by
  have hup : get_cell g ((cell.row : Int) - 1) (cell.col : Int) =
      if 0 < cell.row then some (mkCell g (cell.row - 1) cell.col) else none := by
    by_cases h : 0 < cell.row
    · rw [if_pos h, show ((cell.row : Int) - 1) = ((cell.row - 1 : Nat) : Int) by omega,
        get_cell_nat g (cell.row - 1) cell.col, if_pos ⟨by omega, hc⟩]
    · rw [if_neg h]
      apply get_cell_out_of_bounds
      omega
  have hdown : get_cell g ((cell.row : Int) + 1) (cell.col : Int) =
      if cell.row + 1 < g.rows then some (mkCell g (cell.row + 1) cell.col) else none := by
    by_cases h : cell.row + 1 < g.rows
    · rw [if_pos h, show ((cell.row : Int) + 1) = ((cell.row + 1 : Nat) : Int) by omega,
        get_cell_nat g (cell.row + 1) cell.col, if_pos ⟨h, hc⟩]
    · rw [if_neg h]
      apply get_cell_out_of_bounds
      omega
  have hleft : get_cell g (cell.row : Int) ((cell.col : Int) - 1) =
      if 0 < cell.col then some (mkCell g cell.row (cell.col - 1)) else none := by
    by_cases h : 0 < cell.col
    · rw [if_pos h, show ((cell.col : Int) - 1) = ((cell.col - 1 : Nat) : Int) by omega,
        get_cell_nat g cell.row (cell.col - 1), if_pos ⟨hr, by omega⟩]
    · rw [if_neg h]
      apply get_cell_out_of_bounds
      omega
  have hright : get_cell g (cell.row : Int) ((cell.col : Int) + 1) =
      if cell.col + 1 < g.cols then some (mkCell g cell.row (cell.col + 1)) else none := by
    by_cases h : cell.col + 1 < g.cols
    · rw [if_pos h, show ((cell.col : Int) + 1) = ((cell.col + 1 : Nat) : Int) by omega,
        get_cell_nat g cell.row (cell.col + 1), if_pos ⟨hr, h⟩]
    · rw [if_neg h]
      apply get_cell_out_of_bounds
      omega
  unfold neighborCells
  rw [hup, hdown, hleft, hright]
  by_cases h1 : 0 < cell.row <;> by_cases h2 : cell.row + 1 < g.rows <;>
    by_cases h3 : 0 < cell.col <;> by_cases h4 : cell.col + 1 < g.cols <;>
    simp [h1, h2, h3, h4, List.filterMap]

/-- C10: Grid.get_cell is total — it returns the stored Cell for every in-bounds
(row, col) and None (never an exception) for every out-of-bounds pair; the
neighbor map built on top of it links only in-bounds orthogonal neighbors, so on
a grid of size at least 2×2 a corner cell gets exactly 2 neighbors, an edge cell
3 and an interior cell 4. -/
theorem get_cell_total :
    (∀ (g : GridIn) (row col : Int), 0 ≤ row → row < (g.rows : Int) → 0 ≤ col →
      col < (g.cols : Int) → get_cell g row col = some (mkCell g row.toNat col.toNat)) ∧
    (∀ (g : GridIn) (row col : Int),
      ¬(0 ≤ row ∧ row < (g.rows : Int) ∧ 0 ≤ col ∧ col < (g.cols : Int)) →
      get_cell g row col = none) ∧
    (∀ (g : GridIn) (cell nb : Cell), nb ∈ neighborCells g cell →
      nb.row < g.rows ∧ nb.col < g.cols) ∧
    (∀ (g : GridIn) (r c : Nat), r < g.rows → c < g.cols → 2 ≤ g.rows → 2 ≤ g.cols →
      (((r = 0 ∨ r + 1 = g.rows) ∧ (c = 0 ∨ c + 1 = g.cols)) →
        (neighborCells g (mkCell g r c)).length = 2) ∧
      (((r = 0 ∨ r + 1 = g.rows) ∧ ¬(c = 0 ∨ c + 1 = g.cols)) ∨
          (¬(r = 0 ∨ r + 1 = g.rows) ∧ (c = 0 ∨ c + 1 = g.cols)) →
        (neighborCells g (mkCell g r c)).length = 3) ∧
      ((¬(r = 0 ∨ r + 1 = g.rows) ∧ ¬(c = 0 ∨ c + 1 = g.cols)) →
        (neighborCells g (mkCell g r c)).length = 4)) := by
  refine ⟨get_cell_in_bounds, get_cell_out_of_bounds, ?_, ?_⟩
  · intro g cell nb hnb
    have hscan := neighborCells_subset_scan g cell nb hnb
    have := (mem_scanCells g nb).mp hscan
    exact ⟨this.1, this.2.1⟩
  · intro g r c hr hc hrows hcols
    rw [neighborCells_count g (mkCell g r c) hr hc]
    simp only [show (mkCell g r c).row = r from rfl, show (mkCell g r c).col = c from rfl]
    refine ⟨?_, ?_, ?_⟩
    · rintro ⟨hrow, hcol⟩
      split_ifs <;> omega
    · rintro (⟨hrow, hcol⟩ | ⟨hrow, hcol⟩) <;> split_ifs <;> omega
    · rintro ⟨hrow, hcol⟩
      split_ifs <;> omega

/-- Closed witness for the C10 theorem on the 2×2 grid. -/
theorem get_cell_total_witness :
    get_cell monoGrid 0 1 = some (mkCell monoGrid (0 : Int).toNat (1 : Int).toNat) ∧
    get_cell monoGrid (-1) 0 = none ∧
    ((mkCell monoGrid 1 0).row < monoGrid.rows ∧ (mkCell monoGrid 1 0).col < monoGrid.cols) ∧
    (neighborCells monoGrid (mkCell monoGrid 0 0)).length = 2 :=
  ⟨get_cell_total.1 monoGrid 0 1 (by decide) (by decide) (by decide) (by decide),
   get_cell_total.2.1 monoGrid (-1) 0 (by decide),
   get_cell_total.2.2.1 monoGrid (mkCell monoGrid 0 0) (mkCell monoGrid 1 0) (by decide),
   (get_cell_total.2.2.2 monoGrid 0 0 (by decide) (by decide) (by decide) (by decide)).1
     (by decide)⟩
